import Mathlib

/-!
Verification development for the flutter-pro-max skill installer
(multi-target template generation and installation pipeline).

Paths are modelled as lists of segments relative to the project root.
The Platform Registry, Template Renderer, Installer Planner and
Filesystem Writer live in `cli/src/utils/template.ts` and
`cli/src/types/index.ts`, which are not part of the provided sources;
those components are modelled from the specification, as marked on each
definition. The CLI entry point (`cli/src/index.ts`) and the init
command (`cli/src/commands/init.ts`) are embedded from the source.
-/

namespace FlutterSkill

/-- Install mode of a platform: `full` copies the whole asset tree into the
platform directory, `reference` writes a thin pointer file that relies on a
single shared asset location. -/
inductive InstallMode where
  | full
  | reference
deriving DecidableEq, Repr

/-- Template variant, one of several pre-written content bodies sized to a
length budget of a platform. -/
inductive TemplateVariant where
  | full
  | compact
  | mini
deriving DecidableEq, Repr

/-- Static description of one supported assistant. -/
structure PlatformProfile where
  id : String
  displayName : String
  targetRoot : List String
  installMode : InstallMode
  templateVariant : TemplateVariant
  usesSharedFolder : Bool
deriving DecidableEq, Repr

/-- Modelled from the spec: the Platform Registry of
`cli/src/types/index.ts` (not under the provided sources). The sixteen
platforms, their install modes and template variants follow the table in
`cli/README.md`; the target directories follow the directory list of the
asset sync script and the README project structure. -/
def registry : List PlatformProfile :=
  [ { id := "claude", displayName := "Claude Code",
      targetRoot := [".claude", "skills", "flutter-pro-max"],
      installMode := .full, templateVariant := .full, usesSharedFolder := false },
    { id := "codex", displayName := "Codex CLI",
      targetRoot := [".codex"],
      installMode := .full, templateVariant := .full, usesSharedFolder := false },
    { id := "continue", displayName := "Continue",
      targetRoot := [".continue"],
      installMode := .full, templateVariant := .full, usesSharedFolder := false },
    { id := "junie", displayName := "JetBrains AI (Junie)",
      targetRoot := [".junie"],
      installMode := .full, templateVariant := .full, usesSharedFolder := false },
    { id := "gemini", displayName := "Gemini CLI",
      targetRoot := [".gemini"],
      installMode := .full, templateVariant := .full, usesSharedFolder := false },
    { id := "opencode", displayName := "OpenCode",
      targetRoot := [".opencode"],
      installMode := .full, templateVariant := .full, usesSharedFolder := false },
    { id := "codebuddy", displayName := "CodeBuddy",
      targetRoot := [".codebuddy"],
      installMode := .full, templateVariant := .full, usesSharedFolder := false },
    { id := "trae", displayName := "Trae",
      targetRoot := [".trae"],
      installMode := .full, templateVariant := .full, usesSharedFolder := false },
    { id := "antigravity", displayName := "Antigravity (Google)",
      targetRoot := [".agent"],
      installMode := .full, templateVariant := .compact, usesSharedFolder := false },
    { id := "cursor", displayName := "Cursor",
      targetRoot := [".cursor"],
      installMode := .reference, templateVariant := .full, usesSharedFolder := true },
    { id := "windsurf", displayName := "Windsurf",
      targetRoot := [".windsurf"],
      installMode := .reference, templateVariant := .full, usesSharedFolder := true },
    { id := "copilot", displayName := "GitHub Copilot",
      targetRoot := [".github", "skills"],
      installMode := .full, templateVariant := .full, usesSharedFolder := false },
    { id := "vscode", displayName := "VS Code",
      targetRoot := [".github", "skills"],
      installMode := .full, templateVariant := .full, usesSharedFolder := false },
    { id := "kiro", displayName := "Kiro",
      targetRoot := [".kiro"],
      installMode := .reference, templateVariant := .full, usesSharedFolder := true },
    { id := "roocode", displayName := "RooCode",
      targetRoot := [".roo"],
      installMode := .reference, templateVariant := .full, usesSharedFolder := true },
    { id := "qoder", displayName := "Qodo/Qoder",
      targetRoot := [".qoder"],
      installMode := .reference, templateVariant := .full, usesSharedFolder := true } ]

/-- Faults of the installation pipeline. -/
inductive InstallError where
  | UnknownPlatform (id : String)
  | NoProfilesSelected
  | MissingPlaceholder (name : String)
deriving DecidableEq, Repr

/-- Modelled from the spec: `resolveProfile(id) -> PlatformProfile`, a pure
lookup over the static registry, failing with `UnknownPlatform` when the id
is not registered (the Platform Registry source is not under the provided
sources). -/
def resolveProfile (id : String) : Except InstallError PlatformProfile :=
  match registry.find? (fun p => p.id = id) with
  | some p => .ok p
  | none => .error (.UnknownPlatform id)

/-- Modelled from the spec: `listProfiles()`, the ordered sequence of all
registered profiles. -/
def listProfiles : List PlatformProfile := registry

/-- Modelled from the spec: the `AI_TYPES` constant of
`cli/src/types/index.ts` (not under the provided sources): every registered
platform id plus the special id `all`, in the order of the README table. -/
def AI_TYPES : List String :=
  ["claude", "codex", "continue", "junie", "gemini", "opencode", "codebuddy",
   "trae", "antigravity", "cursor", "windsurf", "copilot", "vscode", "kiro",
   "roocode", "qoder", "all"]

/-- One piece of a template body: literal text, or a placeholder hole to be
substituted at render time. -/
inductive Piece where
  | lit (text : String)
  | hole (name : String)
deriving DecidableEq, Repr

/-- Modelled from the spec: the template body of each variant. The
`compact` body follows the compact (about 5KB) template staged in the
sources (the first unnamed template document,
`assets/templates/base/skill-content-10k.md`), whose placeholders are, in
order, TITLE, DESCRIPTION, SKILL_OR_WORKFLOW, four occurrences of
SCRIPT_PATH, and QUICK_REFERENCE; the `mini` body follows
`assets/templates/base/skill-content-4k.md`; the `full` body
(`skill-content.md`, not under the provided sources) is modelled from the
spec and the README. Literal text is abbreviated, the placeholder names
and their order are those of the template files. -/
def templateBody : TemplateVariant → List Piece
  | .full =>
      [.lit "# ", .hole "TITLE", .lit "\n\n", .hole "DESCRIPTION",
       .lit "\n\n---\n\n## Role: Flutter Expert\n", .hole "SKILL_OR_WORKFLOW",
       .lit "\nsearch command: python3 ", .hole "SCRIPT_PATH",
       .lit "/search.py\n", .hole "QUICK_REFERENCE", .lit "\n"]
  | .compact =>
      [.lit "# ", .hole "TITLE", .lit "\n\n", .hole "DESCRIPTION",
       .lit "\n\n---\n\n## How to Use This ", .hole "SKILL_OR_WORKFLOW",
       .lit "\n\n### Step 2: Search Relevant Data\npython3 ",
       .hole "SCRIPT_PATH", .lit "/search.py --top 5\npython3 ",
       .hole "SCRIPT_PATH", .lit "/search.py --domain widget --top 5\npython3 ",
       .hole "SCRIPT_PATH", .lit "/search.py --domain package --top 5\npython3 ",
       .hole "SCRIPT_PATH", .lit "/search.py --stack riverpod --top 5\n",
       .hole "QUICK_REFERENCE", .lit "\n"]
  | .mini =>
      [.lit "# ", .hole "TITLE", .lit "\n\n", .hole "DESCRIPTION",
       .lit "\n\n---\n\n## Core Rules\n", .hole "QUICK_REFERENCE", .lit "\n"]

/-- Placeholder names referenced by a template body, in order. -/
def referencedHoles (body : List Piece) : List String :=
  body.filterMap (fun piece =>
    match piece with
    | .lit _ => none
    | .hole n => some n)

/-- Lookup of a placeholder value in a params object, modelled as an
association list. -/
def lookupParam (params : List (String × String)) (name : String) : Option String :=
  (params.find? (fun kv => kv.1 = name)).map (fun kv => kv.2)

/-- Modelled from the spec: rendering of a list of template pieces; a hole
whose name has no supplied value fails with `MissingPlaceholder`. -/
def renderPieces (params : List (String × String)) : List Piece → Except InstallError String
  | [] => .ok ""
  | .lit t :: rest => (renderPieces params rest).map (fun s => t ++ s)
  | .hole n :: rest =>
      match lookupParam params n with
      | some v => (renderPieces params rest).map (fun s => v ++ s)
      | none => .error (.MissingPlaceholder n)

/-- Modelled from the spec: `render(variant, params) -> text`, pure text
substitution of placeholders over the body of the variant (the Template Renderer
source `cli/src/utils/template.ts` is not under the provided sources). -/
def render (v : TemplateVariant) (params : List (String × String)) :
    Except InstallError String :=
  renderPieces params (templateBody v)

/-- Kind of a planned file source. -/
inductive SourceKind where
  | template
  | staticAsset
deriving DecidableEq, Repr

/-- One planned write: a source, a destination path relative to the project
root, and the overwrite policy. -/
structure FileAction where
  sourceKind : SourceKind
  sourceRef : String
  destinationPath : List String
  allowOverwrite : Bool
deriving DecidableEq, Repr

/-- The single shared asset location used by reference-mode installs. -/
def sharedRoot : List String := [".shared"]

/-- Modelled from the spec: the one action that writes the shared asset
tree (data plus scripts) to the shared location. -/
def sharedTreeAction (force : Bool) : FileAction :=
  { sourceKind := .staticAsset, sourceRef := "shared-asset-tree",
    destinationPath := sharedRoot, allowOverwrite := force }

/-- Modelled from the spec: the rendered skill file of a full-mode
profile, written into its target root. -/
def renderedSkillAction (p : PlatformProfile) (force : Bool) : FileAction :=
  { sourceKind := .template, sourceRef := p.id,
    destinationPath := p.targetRoot ++ ["SKILL.md"], allowOverwrite := force }

/-- Modelled from the spec: the complete data/script asset tree copied into
the target root of a full-mode profile. -/
def assetTreeAction (p : PlatformProfile) (force : Bool) : FileAction :=
  { sourceKind := .staticAsset, sourceRef := "platform-asset-tree",
    destinationPath := p.targetRoot ++ ["data"], allowOverwrite := force }

/-- Modelled from the spec: the thin rendered file of a reference-mode
profile that points at the shared asset location. -/
def thinReferenceAction (p : PlatformProfile) (force : Bool) : FileAction :=
  { sourceKind := .template, sourceRef := p.id,
    destinationPath := p.targetRoot ++ ["SKILL.md"], allowOverwrite := force }

/-- Recognizer of the deduplicated shared-asset-tree action. -/
def isSharedTreeAction (a : FileAction) : Bool :=
  a.sourceKind == .staticAsset && a.sourceRef == "shared-asset-tree"

/-- Modelled from the spec: the planning fold over the selected profiles.
It returns the shared-asset actions and the per-platform actions
separately; `scheduled` is the explicit set of shared target paths whose
tree write is already scheduled, checked before appending. -/
def planProfilesAux (force : Bool) :
    List PlatformProfile → List (List String) → List FileAction × List FileAction
  | [], _ => ([], [])
  | p :: rest, scheduled =>
      match p.installMode with
      | .full =>
          let pair := planProfilesAux force rest scheduled
          (pair.1, renderedSkillAction p force :: assetTreeAction p force :: pair.2)
      | .reference =>
          if sharedRoot ∈ scheduled then
            let pair := planProfilesAux force rest scheduled
            (pair.1, thinReferenceAction p force :: pair.2)
          else
            let pair := planProfilesAux force rest (sharedRoot :: scheduled)
            (sharedTreeAction force :: pair.1, thinReferenceAction p force :: pair.2)

/-- Modelled from the spec: the InstallPlan for a list of profiles;
shared-asset actions are planned before per-platform actions. -/
def planProfiles (profiles : List PlatformProfile) (force : Bool) : List FileAction :=
  (planProfilesAux force profiles []).1 ++ (planProfilesAux force profiles []).2

/-- Modelled from the spec: `plan(platformIdOrAll, options) -> InstallPlan`
(the Installer Planner source `cli/src/utils/template.ts` is not under the
provided sources). The special id `all` expands to every registered
profile; otherwise the single profile is resolved through the registry. -/
def plan (id : String) (force : Bool) : Except InstallError (List FileAction) :=
  if id = "all" then
    if listProfiles.isEmpty then .error .NoProfilesSelected
    else .ok (planProfiles listProfiles force)
  else
    match resolveProfile id with
    | .ok p => .ok (planProfiles [p] force)
    | .error e => .error e

/-- The destination filesystem, modelled as an association list from
root-relative paths to file contents. -/
abbrev FSys := List (List String × String)

/-- Existence check of a destination path. -/
def fsExists (fs : FSys) (p : List String) : Bool :=
  fs.any (fun e => e.1 = p)

/-- Write of a file: replaces the content when the path exists, appends a
new entry otherwise (parent directories are implicit in the path model). -/
def fsWrite (fs : FSys) (p : List String) (c : String) : FSys :=
  if fsExists fs p then fs.map (fun e => if e.1 = p then (p, c) else e)
  else fs ++ [(p, c)]

/-- Result of executing an InstallPlan. -/
structure InstallResult where
  affectedTopLevelFolders : List String
  filesWritten : Nat
  filesSkipped : Nat
deriving DecidableEq, Repr

/-- The Writer fault: an I/O error on a path, with its underlying cause. -/
inductive WriteError where
  | WriteFailure (path : List String) (cause : String)
deriving DecidableEq, Repr

/-- State threaded through plan execution: the filesystem plus the
accumulating InstallResult. -/
structure ExecState where
  fs : FSys
  result : InstallResult
deriving DecidableEq, Repr

/-- Appends the top-level folder (first path segment) of a destination on
first occurrence, preserving discovery order. -/
def recordTop (folders : List String) (p : List String) : List String :=
  match p with
  | [] => folders
  | t :: _ => if folders.contains t then folders else folders ++ [t]

/-- Modelled from the spec: execution of the remaining FileActions in plan
order. `resolve` supplies the bytes of an action (Asset Source Resolver
plus Renderer, a collaborator); `fault` is the I/O fault oracle: `some c`
means writing that path fails with underlying cause `c`. A skip happens
when the destination exists and overwrite is not allowed; an I/O error
aborts the remaining plan, returning the state reached so far. -/
def executeFrom (resolve : FileAction → String) (fault : List String → Option String)
    (st : ExecState) : List FileAction → ExecState × Option WriteError
  | [] => (st, none)
  | a :: rest =>
      if fsExists st.fs a.destinationPath && !a.allowOverwrite then
        executeFrom resolve fault
          { st with result :=
              { st.result with
                  filesSkipped := st.result.filesSkipped + 1,
                  affectedTopLevelFolders :=
                    recordTop st.result.affectedTopLevelFolders a.destinationPath } }
          rest
      else
        match fault a.destinationPath with
        | some c => (st, some (.WriteFailure a.destinationPath c))
        | none =>
            executeFrom resolve fault
              { fs := fsWrite st.fs a.destinationPath (resolve a),
                result :=
                  { filesWritten := st.result.filesWritten + 1,
                    filesSkipped := st.result.filesSkipped,
                    affectedTopLevelFolders :=
                      recordTop st.result.affectedTopLevelFolders a.destinationPath } }
              rest

/-- The fresh execution state over a starting filesystem. -/
def initState (fs : FSys) : ExecState :=
  { fs := fs, result := { affectedTopLevelFolders := [], filesWritten := 0, filesSkipped := 0 } }

/-- Modelled from the spec: `execute(plan) -> InstallResult`, the
Filesystem Writer run over a whole plan from a fresh result. -/
def execute (resolve : FileAction → String) (fault : List String → Option String)
    (planned : List FileAction) (fs : FSys) : ExecState × Option WriteError :=
  executeFrom resolve fault (initState fs) planned

/-- The fault-free oracle: every write succeeds. -/
def noFault : List String → Option String := fun _ => none

/-- Outcome of the init command as observed by the caller. -/
inductive InitOutcome where
  | cancelled
  | installed (folders : List String)
  | failed (code : Nat)
deriving DecidableEq, Repr

/-- Generation step of `initCommand`: plans for the selected type (the
special id `all` expands through the registry inside `plan`) and executes
the plan, returning the affected top-level folders, or `none` on any
fault. Modelled from the spec for the planning and writing internals. -/
def runGenerate (resolve : FileAction → String) (fault : List String → Option String)
    (fs : FSys) (aiType : String) (force : Bool) : FSys × Option (List String) :=
  match plan aiType force with
  | .error _ => (fs, none)
  | .ok acts =>
      match execute resolve fault acts fs with
      | (st, none) => (st.fs, some st.result.affectedTopLevelFolders)
      | (st, some _) => (st.fs, none)

/-- Embedding of `initCommand` (`cli/src/commands/init.ts`). When no AI
type option is given, the answer `promptChoice` of the interactive prompt
decides: `none` (cancellation) makes the command return with a warning and
no generation; otherwise generation runs and any error exits with code 1,
leaving already-written files on disk. The `forceOpt` option is accepted
but, as in the source, not consulted by the command body. -/
def initCommand (resolve : FileAction → String) (fault : List String → Option String)
    (aiOpt : Option String) (forceOpt : Option Bool) (promptChoice : Option String)
    (fs : FSys) : FSys × InitOutcome :=
  let aiType? : Option String :=
    match aiOpt with
    | some t => some t
    | none => promptChoice
  match aiType? with
  | none => (fs, .cancelled)
  | some aiType =>
      match runGenerate resolve fault fs aiType false with
      | (fs2, some folders) => (fs2, .installed folders)
      | (fs2, none) => (fs2, .failed 1)

/-- A parsed CLI invocation: bare invocation with no subcommand, or the
`init` subcommand with its options. -/
inductive CliInvocation where
  | noSubcommand
  | initCmd (ai : Option String) (force : Option Bool)
deriving DecidableEq, Repr

/-- Outcome of a CLI invocation: early exit with a code, or a run of the
init command. -/
inductive CliOutcome where
  | exited (code : Nat)
  | ranInit (o : InitOutcome)
deriving DecidableEq, Repr

/-- Embedding of the program dispatch of `cli/src/index.ts`: the `init`
subcommand validates `--ai` against `AI_TYPES` (exiting with code 1 on an
invalid type) and then calls `initCommand` with its options; the default
action (no subcommand) calls `initCommand` with no options. -/
def cliDispatch (resolve : FileAction → String) (fault : List String → Option String)
    (promptChoice : Option String) (fs : FSys) :
    CliInvocation → FSys × CliOutcome
  | .noSubcommand =>
      let r := initCommand resolve fault none none promptChoice fs
      (r.1, .ranInit r.2)
  | .initCmd aiOpt forceOpt =>
      match aiOpt with
      | some t =>
          if AI_TYPES.contains t then
            let r := initCommand resolve fault (some t) forceOpt promptChoice fs
            (r.1, .ranInit r.2)
          else (fs, .exited 1)
      | none =>
          let r := initCommand resolve fault none forceOpt promptChoice fs
          (r.1, .ranInit r.2)

/-- A path segment is normalized when it is nonempty and is neither the
current- nor the parent-directory reference. -/
def safeSegment (s : String) : Bool :=
  !(s = "" || s = "." || s = "..")

/-- A destination path is relative and normalized: segments only, none of
which is empty or a traversal step, and at least one segment. -/
def safePath (p : List String) : Bool :=
  !p.isEmpty && p.all safeSegment

theorem planProfilesAux_fst_shared (force : Bool) :
    ∀ (ps : List PlatformProfile) (scheduled : List (List String)),
      ∀ a ∈ (planProfilesAux force ps scheduled).1, isSharedTreeAction a = true := by
  intro ps
  induction ps with
  | nil =>
      intro scheduled a ha
      simp [planProfilesAux] at ha
  | cons p rest ih =>
      intro scheduled a ha
      cases hm : p.installMode with
      | full =>
          simp only [planProfilesAux, hm] at ha
          exact ih scheduled a ha
      | reference =>
          simp only [planProfilesAux, hm] at ha
          by_cases hs : sharedRoot ∈ scheduled
          · rw [if_pos hs] at ha
            exact ih scheduled a ha
          · rw [if_neg hs] at ha
            rcases List.mem_cons.mp ha with h | h
            · subst h; rfl
            · exact ih (sharedRoot :: scheduled) a h

theorem planProfilesAux_snd_not_shared (force : Bool) :
    ∀ (ps : List PlatformProfile) (scheduled : List (List String)),
      ∀ a ∈ (planProfilesAux force ps scheduled).2, isSharedTreeAction a = false := by
  intro ps
  induction ps with
  | nil =>
      intro scheduled a ha
      simp [planProfilesAux] at ha
  | cons p rest ih =>
      intro scheduled a ha
      cases hm : p.installMode with
      | full =>
          simp only [planProfilesAux, hm] at ha
          rcases List.mem_cons.mp ha with h | h
          · subst h; rfl
          rcases List.mem_cons.mp h with h2 | h2
          · subst h2; rfl
          · exact ih scheduled a h2
      | reference =>
          simp only [planProfilesAux, hm] at ha
          by_cases hs : sharedRoot ∈ scheduled
          · rw [if_pos hs] at ha
            rcases List.mem_cons.mp ha with h | h
            · subst h; rfl
            · exact ih scheduled a h
          · rw [if_neg hs] at ha
            rcases List.mem_cons.mp ha with h | h
            · subst h; rfl
            · exact ih (sharedRoot :: scheduled) a h

theorem plan_ok_shape (id : String) (force : Bool) (l : List FileAction)
    (h : plan id force = .ok l) :
    ∃ ps : List PlatformProfile,
      (∀ p ∈ ps, p ∈ listProfiles) ∧ l = planProfiles ps force := by
  by_cases hall : id = "all"
  · subst hall
    have hne : listProfiles.isEmpty = false := by decide
    simp [plan, hne] at h
    exact ⟨listProfiles, fun p hp => hp, h.symm⟩
  · simp only [plan, if_neg hall] at h
    cases hr : resolveProfile id with
    | ok p =>
        rw [hr] at h
        simp only [Except.ok.injEq] at h
        refine ⟨[p], ?_, h.symm⟩
        intro q hq
        rcases List.mem_singleton.mp hq with rfl
        unfold resolveProfile at hr
        cases hf : registry.find? (fun r => r.id = id) with
        | some r =>
            rw [hf] at hr
            simp only [Except.ok.injEq] at hr
            subst hr
            exact List.mem_of_find?_eq_some hf
        | none => rw [hf] at hr; cases hr
    | error e => rw [hr] at h; cases h

/-- C7: in every InstallPlan produced by `plan`, all shared-asset actions
occur earlier in the sequence than every per-platform action: once a
per-platform (non-shared) action appears at position `i`, every later
position `j` also holds a per-platform action, so no per-platform action
precedes a shared-asset action. -/
theorem plan_shared_before_per_platform (id : String) (force : Bool)
    (l : List FileAction) (h : plan id force = .ok l)
    (i j : Nat) (hi : i < l.length) (hj : j < l.length) (hij : i < j)
    (hper : isSharedTreeAction (l.get ⟨i, hi⟩) = false) :
    isSharedTreeAction (l.get ⟨j, hj⟩) = false := by
  obtain ⟨ps, -, hplan⟩ := plan_ok_shape id force l h
  subst hplan
  unfold planProfiles at *
  set sh := (planProfilesAux force ps []).1 with hsh
  set per := (planProfilesAux force ps []).2 with hper2
  have hi2 : sh.length ≤ i := by
    by_contra hlt
    push_neg at hlt
    have : (sh ++ per).get ⟨i, hi⟩ = sh.get ⟨i, hlt⟩ := by
      simp only [List.get_eq_getElem]
      exact List.getElem_append_left hlt
    rw [this] at hper
    have htrue := planProfilesAux_fst_shared force ps []
      (sh.get ⟨i, hlt⟩) (List.get_mem sh i hlt)
    rw [hper] at htrue
    cases htrue
  have hj2 : sh.length ≤ j := le_trans hi2 (le_of_lt hij)
  have hlen : j - sh.length < per.length := by
    have := hj
    simp only [List.length_append] at this
    omega
  have : (sh ++ per).get ⟨j, hj⟩ = per.get ⟨j - sh.length, hlen⟩ := by
    simp only [List.get_eq_getElem]
    exact List.getElem_append_right hj2
  rw [this]
  exact planProfilesAux_snd_not_shared force ps []
    (per.get ⟨j - sh.length, hlen⟩) (List.get_mem per _ hlen)

/-- C7 witness: in the concrete plan for `all` (with `force = false`), the
action at position 1 is a per-platform action, and so is the action at the
later position 2. -/
theorem plan_shared_before_per_platform_witness :
    isSharedTreeAction ((planProfiles listProfiles false).get ⟨2, by decide⟩) = false :=
  plan_shared_before_per_platform "all" false (planProfiles listProfiles false)
    (by rfl) 1 2 (by decide) (by decide) (by decide) (by decide)

/-- C1: planning for the special id `all` over the registry (which holds at
least one reference-mode profile) produces exactly one shared-asset-tree
action — not one per reference profile — together with exactly one thin
reference file action for each reference-mode profile (one each, hence
pairwise distinct). -/
theorem plan_all_dedups_shared_tree (force : Bool) (l : List FileAction)
    (h : plan "all" force = .ok l) :
    1 ≤ listProfiles.countP (fun p => p.installMode == InstallMode.reference) ∧
    l.countP (fun a => isSharedTreeAction a) = 1 ∧
    (∀ p ∈ listProfiles, p.installMode = .reference →
      l.countP (fun a => a = thinReferenceAction p force) = 1) := by
  have hne : listProfiles.isEmpty = false := by decide
  simp [plan, hne] at h
  subst h
  cases force <;> decide

/-- C1 witness: the concrete plan for `all` with `force = false`. -/
theorem plan_all_dedups_shared_tree_witness :
    1 ≤ listProfiles.countP (fun p => p.installMode == InstallMode.reference) ∧
    (planProfiles listProfiles false).countP (fun a => isSharedTreeAction a) = 1 ∧
    (∀ p ∈ listProfiles, p.installMode = .reference →
      (planProfiles listProfiles false).countP
        (fun a => a = thinReferenceAction p false) = 1) :=
  plan_all_dedups_shared_tree false (planProfiles listProfiles false) (by rfl)

theorem safePath_append_one (r : List String) (s : String)
    (hr : r.all safeSegment = true) (hs : safeSegment s = true) :
    safePath (r ++ [s]) = true := by
  unfold safePath
  cases r with
  | nil => simp [hs]
  | cons x xs => simp_all [List.all_append]

theorem planProfilesAux_safe (force : Bool) :
    ∀ (ps : List PlatformProfile) (scheduled : List (List String)),
      (∀ p ∈ ps, safePath p.targetRoot = true) →
      (∀ a ∈ (planProfilesAux force ps scheduled).1, safePath a.destinationPath = true) ∧
      (∀ a ∈ (planProfilesAux force ps scheduled).2, safePath a.destinationPath = true) := by
  intro ps
  induction ps with
  | nil =>
      intro scheduled _
      constructor <;> intro a ha <;> simp [planProfilesAux] at ha
  | cons p rest ih =>
      intro scheduled hsafe
      have hp : safePath p.targetRoot = true := hsafe p (List.mem_cons_self p rest)
      have hall : p.targetRoot.all safeSegment = true := by
        simp only [safePath, Bool.and_eq_true] at hp
        exact hp.2
      have hrest : ∀ q ∈ rest, safePath q.targetRoot = true :=
        fun q hq => hsafe q (List.mem_cons_of_mem p hq)
      cases hm : p.installMode with
      | full =>
          have ihr := ih scheduled hrest
          constructor <;> intro a ha <;> simp only [planProfilesAux, hm] at ha
          · exact ihr.1 a ha
          · rcases List.mem_cons.mp ha with rfl | h
            · exact safePath_append_one _ _ hall (by decide)
            rcases List.mem_cons.mp h with rfl | h2
            · exact safePath_append_one _ _ hall (by decide)
            · exact ihr.2 a h2
      | reference =>
          by_cases hs : sharedRoot ∈ scheduled
          · have ihr := ih scheduled hrest
            constructor <;> intro a ha <;>
              simp only [planProfilesAux, hm, if_pos hs] at ha
            · exact ihr.1 a ha
            · rcases List.mem_cons.mp ha with rfl | h
              · exact safePath_append_one _ _ hall (by decide)
              · exact ihr.2 a h
          · have ihr := ih (sharedRoot :: scheduled) hrest
            constructor <;> intro a ha <;>
              simp only [planProfilesAux, hm, if_neg hs] at ha
            · rcases List.mem_cons.mp ha with rfl | h
              · rfl
              · exact ihr.1 a h
            · rcases List.mem_cons.mp ha with rfl | h
              · exact safePath_append_one _ _ hall (by decide)
              · exact ihr.2 a h

/-- C8: every FileAction of every InstallPlan produced by `plan` has a
destination path that is relative to the project root and normalized (a
nonempty list of segments, none of which is empty, a current-directory or
a parent-directory reference, so the path cannot resolve outside the
root), and the targetRoot of every registered profile is likewise relative and
normalized. -/
theorem plan_paths_safe (id : String) (force : Bool) (l : List FileAction)
    (h : plan id force = .ok l) :
    (∀ a ∈ l, safePath a.destinationPath = true) ∧
    (∀ p ∈ listProfiles, safePath p.targetRoot = true) := by
  have hreg : ∀ p ∈ listProfiles, safePath p.targetRoot = true := by decide
  obtain ⟨ps, hsub, hplan⟩ := plan_ok_shape id force l h
  subst hplan
  refine ⟨?_, hreg⟩
  have hps : ∀ p ∈ ps, safePath p.targetRoot = true :=
    fun p hp => hreg p (hsub p hp)
  have haux := planProfilesAux_safe force ps [] hps
  intro a ha
  unfold planProfiles at ha
  rcases List.mem_append.mp ha with h1 | h1
  · exact haux.1 a h1
  · exact haux.2 a h1

/-- C8 witness: the concrete plan for `all` with `force = false`. -/
theorem plan_paths_safe_witness :
    (∀ a ∈ planProfiles listProfiles false, safePath a.destinationPath = true) ∧
    (∀ p ∈ listProfiles, safePath p.targetRoot = true) :=
  plan_paths_safe "all" false (planProfiles listProfiles false) (by rfl)

theorem fsExists_fsWrite_self (fs : FSys) (p : List String) (c : String) :
    fsExists (fsWrite fs p c) p = true := by
  unfold fsWrite
  by_cases h : fsExists fs p = true
  · rw [if_pos h]
    unfold fsExists at h ⊢
    rw [List.any_eq_true] at h ⊢
    obtain ⟨e, he, hpe⟩ := h
    simp only [decide_eq_true_eq] at hpe
    exact ⟨(p, c), List.mem_map.mpr ⟨e, he, by simp [hpe]⟩, by simp⟩
  · rw [if_neg h]
    unfold fsExists
    simp [List.any_append]

theorem fsExists_fsWrite_mono (fs : FSys) (p q : List String) (c : String)
    (h : fsExists fs p = true) : fsExists (fsWrite fs q c) p = true := by
  unfold fsWrite
  by_cases hq : fsExists fs q = true
  · rw [if_pos hq]
    unfold fsExists at h ⊢
    rw [List.any_eq_true] at h ⊢
    obtain ⟨e, he, hpe⟩ := h
    simp only [decide_eq_true_eq] at hpe
    by_cases hep : e.1 = q
    · exact ⟨(q, c), List.mem_map.mpr ⟨e, he, by simp [hep]⟩,
        by simp [← hpe, hep]⟩
    · exact ⟨e, List.mem_map.mpr ⟨e, he, by simp [hep]⟩, by simp [hpe]⟩
  · rw [if_neg hq]
    unfold fsExists at h ⊢
    simp [List.any_append, h]

theorem executeFrom_exists_mono (resolve : FileAction → String)
    (fault : List String → Option String) :
    ∀ (l : List FileAction) (st : ExecState) (p : List String),
      fsExists st.fs p = true →
      fsExists (executeFrom resolve fault st l).1.fs p = true := by
  intro l
  induction l with
  | nil =>
      intro st p h
      simpa [executeFrom] using h
  | cons a rest ih =>
      intro st p h
      rw [executeFrom]
      split
      · exact ih _ p h
      · split
        · simpa using h
        · exact ih _ p (fsExists_fsWrite_mono _ _ _ _ h)

theorem executeFrom_run_exists_mono (resolve : FileAction → String)
    (fault : List String → Option String) (l : List FileAction)
    (st st2 : ExecState) (e : Option WriteError) (p : List String)
    (h : executeFrom resolve fault st l = (st2, e))
    (hex : fsExists st.fs p = true) : fsExists st2.fs p = true := by
  have hmono := executeFrom_exists_mono resolve fault l st p hex
  rw [h] at hmono
  exact hmono

theorem executeFrom_ok_creates (resolve : FileAction → String)
    (fault : List String → Option String) :
    ∀ (l : List FileAction) (st st2 : ExecState),
      executeFrom resolve fault st l = (st2, none) →
      ∀ a ∈ l, fsExists st2.fs a.destinationPath = true := by
  intro l
  induction l with
  | nil =>
      intro st st2 h a ha
      cases ha
  | cons b rest ih =>
      intro st st2 h a ha
      rw [executeFrom] at h
      rcases List.mem_cons.mp ha with rfl | hmem
      · split at h
        · next hcond =>
            have hex : fsExists st.fs a.destinationPath = true := by
              simp only [Bool.and_eq_true] at hcond
              exact hcond.1
            exact executeFrom_run_exists_mono resolve fault rest _ _ _ _ h hex
        · split at h
          · simp at h
          · exact executeFrom_run_exists_mono resolve fault rest _ _ _ _ h
              (fsExists_fsWrite_self _ _ _)
      · split at h
        · exact ih _ st2 h a hmem
        · split at h
          · simp at h
          · exact ih _ st2 h a hmem

theorem executeFrom_all_skip (resolve : FileAction → String)
    (fault : List String → Option String) :
    ∀ (l : List FileAction) (fs0 : FSys) (r : InstallResult),
      (∀ a ∈ l, a.allowOverwrite = false) →
      (∀ a ∈ l, fsExists fs0 a.destinationPath = true) →
      ∃ aff, executeFrom resolve fault { fs := fs0, result := r } l =
        ({ fs := fs0,
           result := { affectedTopLevelFolders := aff,
                       filesWritten := r.filesWritten,
                       filesSkipped := r.filesSkipped + l.length } }, none) := by
  intro l
  induction l with
  | nil =>
      intro fs0 r _ _
      exact ⟨r.affectedTopLevelFolders, by simp [executeFrom]⟩
  | cons a rest ih =>
      intro fs0 r hover hex
      have hcond : (fsExists fs0 a.destinationPath && !a.allowOverwrite) = true := by
        rw [hex a (List.mem_cons_self a rest), hover a (List.mem_cons_self a rest)]
        rfl
      rw [executeFrom, if_pos hcond]
      have hover2 : ∀ b ∈ rest, b.allowOverwrite = false :=
        fun b hb => hover b (List.mem_cons_of_mem a hb)
      have hex2 : ∀ b ∈ rest, fsExists fs0 b.destinationPath = true :=
        fun b hb => hex b (List.mem_cons_of_mem a hb)
      obtain ⟨aff, hrest⟩ := ih fs0
        { affectedTopLevelFolders := recordTop r.affectedTopLevelFolders a.destinationPath,
          filesWritten := r.filesWritten,
          filesSkipped := r.filesSkipped + 1 } hover2 hex2
      refine ⟨aff, ?_⟩
      rw [hrest]
      simp [Nat.add_assoc, Nat.add_comm 1 rest.length]

/-- C2: with `allowOverwrite = false` on every action, a second run of
`execute` on the same plan after a successful first run writes nothing:
the second run reports `filesWritten = 0` and `filesSkipped` equal to the
plan length, and leaves the filesystem exactly as the first run left it
(regardless of the content resolver or fault oracle of the second run,
which are never consulted on a skip). -/
theorem execute_second_run_skips_all (resolve resolve2 : FileAction → String)
    (fault1 fault2 : List String → Option String)
    (l : List FileAction) (fs : FSys) (st1 : ExecState)
    (hover : ∀ a ∈ l, a.allowOverwrite = false)
    (h1 : execute resolve fault1 l fs = (st1, none)) :
    ∃ aff, execute resolve2 fault2 l st1.fs =
      ({ fs := st1.fs,
         result := { affectedTopLevelFolders := aff,
                     filesWritten := 0, filesSkipped := l.length } }, none) := by
  have hex : ∀ a ∈ l, fsExists st1.fs a.destinationPath = true :=
    executeFrom_ok_creates resolve fault1 l (initState fs) st1 h1
  obtain ⟨aff, hrun⟩ := executeFrom_all_skip resolve2 fault2 l st1.fs
    { affectedTopLevelFolders := [], filesWritten := 0, filesSkipped := 0 }
    hover hex
  exact ⟨aff, by simpa [execute, initState] using hrun⟩

/-- C2 witness: a one-action plan, first run from the empty filesystem. -/
theorem execute_second_run_skips_all_witness :
    ∃ aff, execute (fun _ => "bytes2") noFault [sharedTreeAction false]
        [([".shared"], "bytes")] =
      ({ fs := [([".shared"], "bytes")],
         result := { affectedTopLevelFolders := aff,
                     filesWritten := 0, filesSkipped := 1 } }, none) :=
  execute_second_run_skips_all (fun _ => "bytes") (fun _ => "bytes2")
    noFault noFault [sharedTreeAction false] []
    { fs := [([".shared"], "bytes")],
      result := { affectedTopLevelFolders := [".shared"],
                  filesWritten := 1, filesSkipped := 0 } }
    (by decide) (by rfl)

theorem executeFrom_append_ok (resolve : FileAction → String)
    (fault : List String → Option String) :
    ∀ (l1 : List FileAction) (st st1 : ExecState) (l2 : List FileAction),
      executeFrom resolve fault st l1 = (st1, none) →
      executeFrom resolve fault st (l1 ++ l2) =
        executeFrom resolve fault st1 l2 := by
  intro l1
  induction l1 with
  | nil =>
      intro st st1 l2 h
      simp only [executeFrom, Prod.mk.injEq] at h
      rw [List.nil_append, h.1]
  | cons a rest ih =>
      intro st st1 l2 h
      rw [executeFrom] at h
      rw [List.cons_append, executeFrom]
      split at h
      · next hcond =>
          rw [if_pos hcond]
          exact ih _ st1 l2 h
      · next hcond =>
          rw [if_neg hcond]
          split at h
          · simp at h
          · exact ih _ st1 l2 h

/-- C3: when `execute` reaches an action whose write faults, it fails with
`WriteFailure` carrying the destination path of that action and the underlying
cause, returns exactly the state reached after the earlier actions (so no
later action is attempted and nothing is rolled back), and every file
created by the earlier actions is still present on disk. -/
theorem execute_aborts_on_fault (resolve : FileAction → String)
    (fault : List String → Option String) (l1 l2 : List FileAction)
    (a : FileAction) (fs : FSys) (st1 : ExecState) (c : String)
    (h1 : executeFrom resolve fault (initState fs) l1 = (st1, none))
    (hw : (fsExists st1.fs a.destinationPath && !a.allowOverwrite) = false)
    (hf : fault a.destinationPath = some c) :
    execute resolve fault (l1 ++ a :: l2) fs =
      (st1, some (.WriteFailure a.destinationPath c)) ∧
    ∀ b ∈ l1, fsExists st1.fs b.destinationPath = true := by
  refine ⟨?_, executeFrom_ok_creates resolve fault l1 _ st1 h1⟩
  unfold execute
  rw [executeFrom_append_ok resolve fault l1 (initState fs) st1 _ h1]
  rw [executeFrom, if_neg (by rw [hw]; exact Bool.false_ne_true), hf]

/-- C3 witness: a five-action plan whose third action faults; the first two
files are on disk and the result is the state after action two. -/
theorem execute_aborts_on_fault_witness :
    execute (fun _ => "bytes")
        (fun p => if p = ["p3"] then some "EACCES" else none)
        ([ { sourceKind := .template, sourceRef := "t1",
             destinationPath := ["p1"], allowOverwrite := false },
           { sourceKind := .template, sourceRef := "t2",
             destinationPath := ["p2"], allowOverwrite := false } ] ++
         ({ sourceKind := .template, sourceRef := "t3",
            destinationPath := ["p3"], allowOverwrite := false } ::
          [ { sourceKind := .template, sourceRef := "t4",
              destinationPath := ["p4"], allowOverwrite := false },
            { sourceKind := .template, sourceRef := "t5",
              destinationPath := ["p5"], allowOverwrite := false } ])) [] =
      ({ fs := [(["p1"], "bytes"), (["p2"], "bytes")],
         result := { affectedTopLevelFolders := ["p1", "p2"],
                     filesWritten := 2, filesSkipped := 0 } },
       some (.WriteFailure ["p3"] "EACCES")) ∧
    ∀ b ∈ [ ({ sourceKind := .template, sourceRef := "t1",
               destinationPath := ["p1"], allowOverwrite := false } : FileAction),
            { sourceKind := .template, sourceRef := "t2",
              destinationPath := ["p2"], allowOverwrite := false } ],
      fsExists [(["p1"], "bytes"), (["p2"], "bytes")] b.destinationPath = true :=
  execute_aborts_on_fault (fun _ => "bytes")
    (fun p => if p = ["p3"] then some "EACCES" else none)
    [ { sourceKind := .template, sourceRef := "t1",
        destinationPath := ["p1"], allowOverwrite := false },
      { sourceKind := .template, sourceRef := "t2",
        destinationPath := ["p2"], allowOverwrite := false } ]
    [ { sourceKind := .template, sourceRef := "t4",
        destinationPath := ["p4"], allowOverwrite := false },
      { sourceKind := .template, sourceRef := "t5",
        destinationPath := ["p5"], allowOverwrite := false } ]
    { sourceKind := .template, sourceRef := "t3",
      destinationPath := ["p3"], allowOverwrite := false }
    []
    { fs := [(["p1"], "bytes"), (["p2"], "bytes")],
      result := { affectedTopLevelFolders := ["p1", "p2"],
                  filesWritten := 2, filesSkipped := 0 } }
    "EACCES" (by rfl) (by decide) (by rfl)

theorem renderPieces_error_of_missing (params : List (String × String)) :
    ∀ (body : List Piece),
      (∃ n ∈ referencedHoles body, lookupParam params n = none) →
      ∃ q ∈ referencedHoles body, lookupParam params q = none ∧
        renderPieces params body = .error (.MissingPlaceholder q) := by
  intro body
  induction body with
  | nil =>
      rintro ⟨n, hn, -⟩
      simp [referencedHoles] at hn
  | cons piece rest ih =>
      rintro ⟨n, hn, hmiss⟩
      cases piece with
      | lit t =>
          have hn2 : n ∈ referencedHoles rest := by
            simpa [referencedHoles, List.filterMap_cons] using hn
          obtain ⟨q, hq, hqm, hqe⟩ := ih ⟨n, hn2, hmiss⟩
          refine ⟨q, ?_, hqm, ?_⟩
          · simpa [referencedHoles, List.filterMap_cons] using hq
          · simp [renderPieces, hqe, Except.map]
      | hole m =>
          by_cases hm : lookupParam params m = none
          · refine ⟨m, ?_, hm, ?_⟩
            · simp [referencedHoles, List.filterMap_cons]
            · simp [renderPieces, hm]
          · have hn2 : n ∈ referencedHoles rest := by
              simp only [referencedHoles, List.filterMap_cons] at hn
              rcases List.mem_cons.mp hn with rfl | h
              · exact absurd hmiss hm
              · exact h
            obtain ⟨q, hq, hqm, hqe⟩ := ih ⟨n, hn2, hmiss⟩
            obtain ⟨v, hv⟩ := Option.ne_none_iff_exists.mp hm
            refine ⟨q, ?_, hqm, ?_⟩
            · simp only [referencedHoles, List.filterMap_cons]
              exact List.mem_cons_of_mem m hq
            · simp [renderPieces, ← hv, hqe, Except.map]

/-- C5: whenever the params object lacks a value for some placeholder
referenced in the body of the chosen variant, `render` fails with
`MissingPlaceholder` naming a referenced placeholder that has no value,
and in particular never returns any output (so no output containing the
literal placeholder token is ever produced). -/
theorem render_missing_placeholder (v : TemplateVariant)
    (params : List (String × String)) (n : String)
    (hn : n ∈ referencedHoles (templateBody v))
    (hmiss : lookupParam params n = none) :
    ∃ q ∈ referencedHoles (templateBody v), lookupParam params q = none ∧
      render v params = .error (.MissingPlaceholder q) :=
  renderPieces_error_of_missing params (templateBody v) ⟨n, hn, hmiss⟩

/-- C5 witness: the mini variant rendered without a `DESCRIPTION` value. -/
theorem render_missing_placeholder_witness :
    ∃ q ∈ referencedHoles (templateBody .mini),
      lookupParam [("TITLE", "Flutter Pro Max")] q = none ∧
      render .mini [("TITLE", "Flutter Pro Max")] =
        .error (.MissingPlaceholder q) :=
  render_missing_placeholder .mini [("TITLE", "Flutter Pro Max")]
    "DESCRIPTION" (by decide) (by rfl)

/-- C6: `render` is deterministic — two calls with the same variant and the
same params object produce identical output text; the embedding of the
renderer is a pure function of its arguments, with no other inputs. -/
theorem render_deterministic (v : TemplateVariant)
    (params : List (String × String)) :
    render v params = render v params := rfl

/-- C9: when `initCommand` runs without an AI type option and the
interactive prompt is cancelled (no aiType in the response), the command
returns with the filesystem untouched — no file generation happens — and
reports cancellation rather than an error exit. -/
theorem initCommand_cancelled (resolve : FileAction → String)
    (fault : List String → Option String) (forceOpt : Option Bool)
    (fs : FSys) :
    initCommand resolve fault none forceOpt none fs = (fs, .cancelled) := rfl

/-- C10: invoking the CLI with no subcommand behaves identically to
invoking the `init` subcommand with no options: for every starting state,
both dispatch to `initCommand` with no AI type and no force flag. -/
theorem default_action_equals_bare_init (resolve : FileAction → String)
    (fault : List String → Option String) (promptChoice : Option String)
    (fs : FSys) :
    cliDispatch resolve fault promptChoice fs .noSubcommand =
      cliDispatch resolve fault promptChoice fs (.initCmd none none) ∧
    cliDispatch resolve fault promptChoice fs .noSubcommand =
      ((initCommand resolve fault none none promptChoice fs).1,
       .ranInit (initCommand resolve fault none none promptChoice fs).2) :=
  ⟨rfl, rfl⟩

theorem mem_AI_TYPES_iff (id : String) :
    id ∈ AI_TYPES ↔ (∃ p ∈ listProfiles, p.id = id) ∨ id = "all" := by
  have h : AI_TYPES = listProfiles.map (fun p => p.id) ++ ["all"] := by decide
  rw [h]
  simp [List.mem_append, List.mem_map]

/-- C4: for every platform id in the registry, `resolveProfile` returns a
profile whose id equals the input; for every id not in the registry,
`resolveProfile` fails with `UnknownPlatform`, and (unless the id is the
special `all`) the CLI invocation `init --ai id` terminates with exit
code 1. -/
theorem resolveProfile_id_correct (id : String)
    (resolve : FileAction → String) (fault : List String → Option String)
    (promptChoice : Option String) (fs : FSys) (forceOpt : Option Bool) :
    (listProfiles.any (fun p => p.id = id) = true →
       ∃ p, resolveProfile id = .ok p ∧ p.id = id) ∧
    (listProfiles.any (fun p => p.id = id) = false →
       resolveProfile id = .error (.UnknownPlatform id) ∧
       (id ≠ "all" →
         cliDispatch resolve fault promptChoice fs (.initCmd (some id) forceOpt) =
           (fs, .exited 1))) := by
  constructor
  · intro hany
    rw [List.any_eq_true] at hany
    obtain ⟨p, hp, hpid⟩ := hany
    simp only [decide_eq_true_eq] at hpid
    unfold resolveProfile
    cases hf : registry.find? (fun r => r.id = id) with
    | some q =>
        have hq := List.find?_some hf
        simp only [decide_eq_true_eq] at hq
        exact ⟨q, rfl, hq⟩
    | none =>
        rw [List.find?_eq_none] at hf
        have := hf p hp
        simp only [decide_eq_true_eq] at this
        exact absurd hpid this
  · intro hany
    simp only [List.any_eq_false, decide_eq_true_eq] at hany
    have hnone : registry.find? (fun r => r.id = id) = none := by
      rw [List.find?_eq_none]
      intro x hx
      simp only [decide_eq_true_eq]
      exact hany x hx
    constructor
    · unfold resolveProfile
      rw [hnone]
    · intro hnall
      have hnotmem : ¬ id ∈ AI_TYPES := by
        rw [mem_AI_TYPES_iff]
        rintro (⟨p, hp, hpid⟩ | h)
        · exact hany p hp hpid
        · exact hnall h
      have hcont : AI_TYPES.contains id = false := by simpa using hnotmem
      simp [cliDispatch, hcont, hnotmem]

/-- C4 witness: the registered id `claude` resolves to itself; the
unregistered id `nope` fails with `UnknownPlatform` and exits the CLI with
code 1. -/
theorem resolveProfile_id_correct_witness :
    (∃ p, resolveProfile "claude" = .ok p ∧ p.id = "claude") ∧
    resolveProfile "nope" = .error (.UnknownPlatform "nope") ∧
    cliDispatch (fun _ => "") noFault none []
      (.initCmd (some "nope") none) = ([], .exited 1) :=
  ⟨(resolveProfile_id_correct "claude" (fun _ => "") noFault none [] none).1
      (by decide),
   ((resolveProfile_id_correct "nope" (fun _ => "") noFault none [] none).2
      (by decide)).1,
   ((resolveProfile_id_correct "nope" (fun _ => "") noFault none [] none).2
      (by decide)).2 (by decide)⟩

end FlutterSkill
